import Mathlib

/-!
Verification development for `sphinxify.py` (auscompgeek/sphinxify), a
Javadoc/Doxygen-to-Sphinx-reST converter.  The Python source is shallowly
embedded below: each Python string primitive used by the code is translated
to an executable Lean function on `String` or `List Char`, the line-by-line
comment scanner `Doc.from_comment` becomes a fold of an explicit step
function over the comment's lines, and `Doc.__str__` becomes a pure
rendering function.  Python code that can raise is modelled with `Option`
(`none` models an uncaught exception).
-/

/-! ## Basic character classes -/

/-- ASCII model of Python's regex `\w` word character class: `[A-Za-z0-9_]`. -/
def isWordChar (c : Char) : Bool :=
  (('a' ≤ c) && (c ≤ 'z')) || (('A' ≤ c) && (c ≤ 'Z')) ||
  (('0' ≤ c) && (c ≤ '9')) || c = '_'

/-- ASCII model of Python's `str.strip` whitespace class. -/
def isPySpace (c : Char) : Bool :=
  c = ' ' || c = '\t' || c = '\n' || c = '\r' || c = '\x0b' || c = '\x0c'

def isLowerAZ (c : Char) : Bool := ('a' ≤ c) && (c ≤ 'z')

def isUpperAZ (c : Char) : Bool := ('A' ≤ c) && (c ≤ 'Z')

/-! ## Python string primitives on `List Char` / `String` -/

/-- Remove the maximal run of trailing characters satisfying `isPySpace`
(the right half of Python's `str.strip`). -/
def trimRightChars : List Char → List Char
  | [] => []
  | c :: rest =>
    let r := trimRightChars rest
    if r = [] ∧ isPySpace c then [] else c :: r

/-- Python `str.strip()`: drop leading and trailing whitespace. -/
def stripChars (l : List Char) : List Char :=
  trimRightChars (l.dropWhile isPySpace)

/-- Python `str.strip()` on `String`. -/
def pyStrip (s : String) : String := (stripChars s.toList).asString

/-- Python `str.lstrip()` on `String`. -/
def pyLstrip (s : String) : String := (s.toList.dropWhile isPySpace).asString

/-- Python `str.rstrip()` on `String`. -/
def pyRstrip (s : String) : String := (trimRightChars s.toList).asString

/-- Whether `pre` is a prefix of `s`; models Python `str.startswith`. -/
def strStarts (s pre : String) : Bool := pre.toList.isPrefixOf s.toList

/-- Whether `suf` is a suffix of `s`; models Python `str.endswith`. -/
def strEnds (s suf : String) : Bool := suf.toList.isSuffixOf s.toList

/-- Python slicing `s[n:]`. -/
def strDrop (s : String) (n : Nat) : String := (s.toList.drop n).asString

/-- Python slicing `s[:-n]`. -/
def strDropRight (s : String) (n : Nat) : String :=
  (s.toList.take (s.toList.length - n)).asString

/-- Python `str.replace(pat, repl)` (all non-overlapping occurrences, left
to right), fuel-structured on the input length. -/
def replaceFuel (pat repl : List Char) : Nat → List Char → List Char
  | 0, l => l
  | _ + 1, [] => []
  | fuel + 1, c :: rest =>
    if pat ≠ [] ∧ pat.isPrefixOf (c :: rest) then
      repl ++ replaceFuel pat repl fuel (List.drop pat.length (c :: rest))
    else
      c :: replaceFuel pat repl fuel rest

/-- Python `s.replace(pat, repl)` on `String`. -/
def pyReplace (s pat repl : String) : String :=
  (replaceFuel pat.toList repl.toList s.toList.length s.toList).asString

/-- Python `str.count(pat)` (non-overlapping occurrences). -/
def countSubFuel (pat : List Char) : Nat → List Char → Nat
  | 0, _ => 0
  | _ + 1, [] => 0
  | fuel + 1, c :: rest =>
    if pat.isPrefixOf (c :: rest) then
      1 + countSubFuel pat fuel (List.drop pat.length (c :: rest))
    else
      countSubFuel pat fuel rest

/-- Python `line.count(pat)` on `String`. -/
def countSubStr (s pat : String) : Nat := countSubFuel pat.toList s.toList.length s.toList

/-- Split a character list at newline characters (no trailing-empty
adjustment); models Python `str.split("\n")`. -/
def splitNLChars : List Char → List (List Char)
  | [] => [[]]
  | c :: rest =>
    let r := splitNLChars rest
    if c = '\n' then [] :: r
    else
      match r with
      | [] => [[c]]
      | h :: t => (c :: h) :: t

/-- Python `s.split("\n")` on `String`. -/
def pySplitNL (s : String) : List String := (splitNLChars s.toList).map List.asString

/-- Python `str.splitlines()` for `\n`-separated text: like `split("\n")`
but with no entry for a trailing final newline, and `[]` for `""`. -/
def pySplitlines (s : String) : List String :=
  let parts := pySplitNL s
  if parts.getLast? = some "" then parts.dropLast else parts

/-- Python `"\n".join(lines)`. -/
def joinNL : List String → String
  | [] => ""
  | [s] => s
  | s :: rest => s ++ "\n" ++ joinNL rest

/-- Python `" ".join(words)`. -/
def joinSpace : List String → String
  | [] => ""
  | [s] => s
  | s :: rest => s ++ " " ++ joinSpace rest

/-- Python `str.split()` with no argument: split on whitespace runs,
discarding empty pieces. -/
def splitWSFuel : Nat → List Char → List String
  | 0, _ => []
  | fuel + 1, l =>
    let l2 := l.dropWhile isPySpace
    match l2 with
    | [] => []
    | _ =>
      (l2.takeWhile (fun c => !isPySpace c)).asString ::
        splitWSFuel fuel (l2.dropWhile (fun c => !isPySpace c))

/-- Python `s.split()` on `String`. -/
def pySplitWS (s : String) : List String := splitWSFuel s.toList.length s.toList

/-- Python `", ".join`-style join with an arbitrary separator. -/
def joinSep (sep : String) : List String → String
  | [] => ""
  | [s] => s
  | s :: rest => s ++ sep ++ joinSep sep rest

/-- `n` spaces, modelling Python `" " * n` (which is `""` for `n = 0`,
matching truncated `Nat` subtraction for a negative Python operand). -/
def spacesStr (n : Nat) : String := (List.replicate n ' ').asString

/-- Python `re.sub("\n{2,}", "\n\n", text)` as a newline-run automaton:
`n` counts pending newline characters; a run of `k` newlines is emitted as
`min k 2` newlines. -/
def collapseAux (n : Nat) : List Char → List Char
  | [] => List.replicate (min n 2) '\n'
  | c :: rest =>
    if c = '\n' then collapseAux (n + 1) rest
    else List.replicate (min n 2) '\n' ++ c :: collapseAux 0 rest

/-- `re.sub("\n{2,}", "\n\n", s)` on `String` (line 202 of the source). -/
def collapseBlanks (s : String) : String := (collapseAux 0 s.toList).asString

/-- `okNL l` holds when `l` has no three consecutive newline characters,
i.e. no run of two or more blank lines. -/
def okNL : List Char → Bool
  | a :: b :: c :: rest => !(a = '\n' && b = '\n' && c = '\n') && okNL (b :: c :: rest)
  | _ => true

/-! ## Generic left-to-right scanning substitution (models `re.sub`)

A matcher takes the current suffix and, on success, returns the replacement
characters and the number of consumed characters (always at least one for
the patterns below, which all start with a literal). -/

def subScanFuel (m : List Char → Option (List Char × Nat)) : Nat → List Char → List Char
  | 0, l => l
  | _ + 1, [] => []
  | fuel + 1, c :: rest =>
    match m (c :: rest) with
    | some (rep, n) =>
      if n = 0 then c :: subScanFuel m fuel rest
      else rep ++ subScanFuel m fuel (List.drop n (c :: rest))
    | none => c :: subScanFuel m fuel rest

def subScan (m : List Char → Option (List Char × Nat)) (s : String) : String :=
  (subScanFuel m s.toList.length s.toList).asString

/-- Drop a literal prefix, or fail. -/
def dropPre (pre : String) (l : List Char) : Option (List Char) :=
  if pre.toList.isPrefixOf l then some (l.drop pre.toList.length) else none

/-- Number of characters (at least 1) up to and including the last `}` in
`l`, or `none` if `l` has no `}`. -/
def lastBracePos : List Char → Option Nat
  | [] => none
  | c :: rest =>
    match lastBracePos rest with
    | some n => some (n + 1)
    | none => if c = '\x7d' then some 1 else none

/-- Match the regex tail `\W*}` with the backtracking semantics of a greedy
`\W*` followed by a literal `}`: consume through the last `}` inside the
maximal non-word-character run.  Returns the unconsumed rest. -/
def matchWStarBrace (l : List Char) : Option (List Char) :=
  let run := l.takeWhile fun c => !isWordChar c
  match lastBracePos run with
  | some n => some (l.drop n)
  | none => none

/-- Matcher for `{@link #(\w+?)\(.*?\)\W*}` with replacement
`:meth:`.{fix(m1)}`` (the `make_self_method_ref` callback). -/
def matchLink1 (fix : String → String) (l : List Char) : Option (List Char × Nat) :=
  match dropPre "\x7b@link #" l with
  | none => none
  | some r1 =>
    let name := r1.takeWhile isWordChar
    if name = [] then none else
    match r1.drop name.length with
    | '(' :: r2 =>
      let body := r2.takeWhile fun c => !(c = ')' || c = '\n')
      match r2.drop body.length with
      | ')' :: r3 =>
        match matchWStarBrace r3 with
        | some rest =>
          some ((":meth:`." ++ fix name.asString ++ "`").toList, l.length - rest.length)
        | none => none
      | _ => none
    | _ => none

/-- Matcher for `{@link (\w+)#(\w+)\(.*?\)\W*}` with replacement
`:meth:`.{m1}.{fix(m2)}`` (the `make_method_ref` callback). -/
def matchLink2 (fix : String → String) (l : List Char) : Option (List Char × Nat) :=
  match dropPre "\x7b@link " l with
  | none => none
  | some r1 =>
    let clsName := r1.takeWhile isWordChar
    if clsName = [] then none else
    match r1.drop clsName.length with
    | '#' :: r2 =>
      let meth := r2.takeWhile isWordChar
      if meth = [] then none else
      match r2.drop meth.length with
      | '(' :: r3 =>
        let body := r3.takeWhile fun c => !(c = ')' || c = '\n')
        match r3.drop body.length with
        | ')' :: r4 =>
          match matchWStarBrace r4 with
          | some rest =>
            some ((":meth:`." ++ clsName.asString ++ "." ++ fix meth.asString ++ "`").toList,
              l.length - rest.length)
          | none => none
        | _ => none
      | _ => none
    | _ => none

/-- Matcher for `{@link #(\w+)\.(\w+)\W*}`, also replaced through
`make_method_ref`. -/
def matchLink3 (fix : String → String) (l : List Char) : Option (List Char × Nat) :=
  match dropPre "\x7b@link #" l with
  | none => none
  | some r1 =>
    let clsName := r1.takeWhile isWordChar
    if clsName = [] then none else
    match r1.drop clsName.length with
    | '.' :: r2 =>
      let meth := r2.takeWhile isWordChar
      if meth = [] then none else
      match matchWStarBrace (r2.drop meth.length) with
      | some rest =>
        some ((":meth:`." ++ clsName.asString ++ "." ++ fix meth.asString ++ "`").toList,
          l.length - rest.length)
      | none => none
    | _ => none

/-- Consume the `(?:[a-z]\w*\.)*` groups of the class-reference pattern. -/
def lowerGroupsFuel : Nat → List Char → List Char
  | 0, l => l
  | fuel + 1, l =>
    match l with
    | [] => []
    | c :: rest =>
      if isLowerAZ c then
        let w := rest.takeWhile isWordChar
        match rest.drop w.length with
        | '.' :: r2 => lowerGroupsFuel fuel r2
        | _ => l
      else l

/-- Matcher for `{@link (?:[a-z]\w*\.)*([A-Z]\w+?)\W*}` with replacement
`:class:`.\1``. -/
def matchLink4 (l : List Char) : Option (List Char × Nat) :=
  match dropPre "\x7b@link " l with
  | none => none
  | some r1 =>
    let r2 := lowerGroupsFuel r1.length r1
    match r2 with
    | c :: r3 =>
      if isUpperAZ c then
        let run := r3.takeWhile isWordChar
        if run = [] then none else
        match matchWStarBrace (r3.drop run.length) with
        | some rest =>
          some ((":class:`." ++ (c :: run).asString ++ "`").toList, l.length - rest.length)
        | none => none
      else none
    | [] => none

/-- Matcher for `{@code ([^}]+)}` with replacement ```` ``\1`` ````. -/
def matchCode (l : List Char) : Option (List Char × Nat) :=
  match dropPre "\x7b@code " l with
  | none => none
  | some r1 =>
    let body := r1.takeWhile fun c => c ≠ '\x7d'
    if body = [] then none else
    match r1.drop body.length with
    | '\x7d' :: rest => some (("``" ++ body.asString ++ "``").toList, l.length - rest.length)
    | _ => none

def subLink1 (fix : String → String) (s : String) : String := subScan (matchLink1 fix) s

def subLink2 (fix : String → String) (s : String) : String := subScan (matchLink2 fix) s

def subLink3 (fix : String → String) (s : String) : String := subScan (matchLink3 fix) s

def subLink4 (s : String) : String := subScan matchLink4 s

def subCode (s : String) : String := subScan matchCode s

/-- Matcher for `</?tag>`, replaced by the symmetric inline marker. -/
def matchEmphTag (tag inline : String) (l : List Char) : Option (List Char × Nat) :=
  if ("</" ++ tag ++ ">").toList.isPrefixOf l then
    some (inline.toList, tag.toList.length + 3)
  else if ("<" ++ tag ++ ">").toList.isPrefixOf l then
    some (inline.toList, tag.toList.length + 2)
  else none

/-- `re.sub(rf"</?{tag}>", inline, line)`. -/
def subTagBoth (tag inline : String) (s : String) : String :=
  subScan (matchEmphTag tag inline) s

/-- The fixed `(tag, inline marker, role)` table of the emphasis loop
(lines 175-180 of the source). -/
def emphTags : List (String × String × String) :=
  [("b", "**", "strong"), ("strong", "**", "strong"),
   ("i", "*", "emphasis"), ("em", "*", "emphasis")]

/-- One iteration of the emphasis/strong rewriting loop (lines 181-185):
balanced tag counts are rewritten symmetrically, unbalanced ones become
role markers. -/
def emphStep (t : String × String × String) (line : String) : String :=
  if countSubStr line ("<" ++ t.1 ++ ">") = countSubStr line ("</" ++ t.1 ++ ">") then
    subTagBoth t.1 t.2.1 line
  else
    pyReplace (pyReplace line ("<" ++ t.1 ++ ">") (":" ++ t.2.2 ++ ":`")) ("</" ++ t.1 ++ ">") "`"

/-- The whole emphasis loop over the four tag spellings, in source order. -/
def emphAll (line : String) : String := emphTags.foldl (fun l t => emphStep t l) line

/-- `re.sub(r"\B_\b", r"\\_", line)` (line 190): escape an underscore whose
left neighbour is a word character and whose right neighbour is not (or is
the end of the string); `prevWord` carries the left context. -/
def escUAux (prevWord : Bool) : List Char → List Char
  | [] => []
  | c :: rest =>
    if c = '_' then
      if prevWord && !(match rest with | d :: _ => isWordChar d | [] => false) then
        '\\' :: '_' :: escUAux true rest
      else
        '_' :: escUAux true rest
    else c :: escUAux (isWordChar c) rest

def escUnderscores (s : String) : String := (escUAux false s.toList).asString

/-! ## Data model (the `Param` and `Doc` dataclasses) -/

/-- The `Param` dataclass: a parameter name and its description lines. -/
structure Param where
  name : String
  lines : List String
deriving DecidableEq, Repr

/-- The `Doc` dataclass: description, ordered parameter list, return-value
lines, and optional deprecation lines (`none` = no `@deprecated` seen). -/
structure Doc where
  desc : String
  params : List Param
  returns : List String
  deprecated : Option (List String)
deriving DecidableEq, Repr

/-! ## The line classifier (`Doc.from_comment`)

The Python loop carries mutable state across lines: the four destination
buffers, the `current_lines` pointer, and the `in_pre` / `in_block` /
`begin_block` flags.  `current_lines` only ever points at the description,
the return list, the (freshly created) deprecation list, or the lines of the
most recently appended parameter, so the pointer is modelled by the tagged
variant `Dest`. -/

/-- The possible referents of Python's `current_lines` pointer.
`Dest.param` refers to the lines of the last element of `params`. -/
inductive Dest where
  | desc
  | param
  | returns
  | deprecated
deriving DecidableEq, Repr

/-- The parser state threaded through the per-line loop. -/
structure PState where
  desc : List String
  params : List Param
  returns : List String
  deprecated : Option (List String)
  dest : Dest
  in_pre : Bool
  in_block : Bool
  begin_block : Bool
deriving DecidableEq, Repr

/-- The initial parser state of `from_comment`. -/
def initState : PState :=
  ⟨[], [], [], none, Dest.desc, false, false, false⟩

/-- Append one line to the lines of the last parameter (the list
`current_lines` aliases after a `@param` tag). -/
def modifyLastParam (s : String) : List Param → List Param
  | [] => []
  | [p] => [⟨p.name, p.lines ++ [s]⟩]
  | p :: q :: rest => p :: modifyLastParam s (q :: rest)

/-- `current_lines.append(s)`: append `s` to the current destination. -/
def appendCur (st : PState) (s : String) : PState :=
  match st.dest with
  | Dest.desc => { st with desc := st.desc ++ [s] }
  | Dest.param => { st with params := modifyLastParam s st.params }
  | Dest.returns => { st with returns := st.returns ++ [s] }
  | Dest.deprecated => { st with deprecated := some (st.deprecated.getD [] ++ [s]) }

/-- Comment-decoration stripping (lines 97-108 of the source), applied to
the already-`strip()`ped line. -/
def stripDecoration (line : String) : String :=
  if strStarts line "//!< " then strDrop line 5
  else if strStarts line "/// " then strDrop line 4
  else
    let line := pyReplace (pyReplace line "/*" "") "*/" ""
    if line = "*" then ""
    else if strStarts line "* " then strDrop line 2
    else if strStarts line "*< " then strDrop line 3
    else line

/-- `line.strip()` followed by decoration stripping: the value of `line`
when the verbatim/blank classification (lines 110-128) runs. -/
def decorLine (raw : String) : String := stripDecoration (pyStrip raw)

/-- The regex `^[\\@]param\W+(\w+)` together with the substitution
`re.sub(r"^[\\@]param\W+\w+(\W+)?", "", line)` (lines 149-152): on a match,
return the parameter name and the rest of the line after the tag, name, and
one optional following non-word run. -/
def parseParamTag (line : String) : Option (String × String) :=
  match line.toList with
  | c :: rest =>
    if c = '\\' ∨ c = '@' then
      match dropPre "param" rest with
      | some r1 =>
        let ws := r1.takeWhile fun c => !isWordChar c
        if ws = [] then none else
        let r2 := r1.drop ws.length
        let name := r2.takeWhile isWordChar
        if name = [] then none else
        some (name.asString, ((r2.drop name.length).dropWhile fun c => !isWordChar c).asString)
      | none => none
    else none
  | [] => none

/-- The regex `^[\\@]returns?\W*` with its stripping substitution
(lines 156-158): on a match, return the rest of the line. -/
def parseReturnTag (line : String) : Option String :=
  match line.toList with
  | c :: rest =>
    if c = '\\' ∨ c = '@' then
      match dropPre "return" rest with
      | some r1 =>
        let r2 := match r1 with
          | 's' :: r => r
          | _ => r1
        some ((r2.dropWhile fun c => !isWordChar c).asString)
      | none => none
    else none
  | [] => none

/-- The inline-markup rewriting applied to one line (lines 161-192 of the
source, the Tag Rewriter): cross-reference links, code spans, list markers,
emphasis/strong, sub/superscript, underscore escaping, and the final
`strip()`. -/
def rewriteInline (fix : String → String) (line : String) : String :=
  let line := subLink1 fix line
  let line := subLink2 fix line
  let line := subLink3 fix line
  let line := subLink4 line
  let line := subCode line
  let line := pyReplace (pyReplace line "<ul>" "") "</ul>" ""
  let line := pyReplace (pyReplace line "<li>" "- ") "</li>" ""
  let line := if strStarts line "\\li " then "-" ++ strDrop line 3 else line
  let line := emphAll line
  let line := pyReplace (pyReplace line "<sub>" ":sub:`") "</sub>" "`"
  let line := pyReplace (pyReplace line "<sup>" ":sup:`") "</sup>" "`"
  let line := escUnderscores line
  pyStrip line

/-- The tail of the loop body (lines 161-199): inline-markup rewriting,
admonition indentation, and the append to `current_lines`.  `noteFired`
records whether the `@note` branch set `begin_block` on this line. -/
def finishLine (fix : String → String) (st : PState) (line : String) (noteFired : Bool) :
    PState :=
  let l := rewriteInline fix line
  let bb := noteFired || st.begin_block
  if st.in_block then appendCur { st with begin_block := bb } ("   " ++ l)
  else if bb then appendCur { st with in_block := true, begin_block := false } l
  else appendCur st l

/-- The loop body after the verbatim/blank classification (lines 130-199):
`lstrip`, block-identity tags, the brief/enum/deprecated/note chain, the
`@param`/`@return` recognizers, then `finishLine`. -/
def processRest (fix : String → String) (st : PState) (line : String) : PState :=
  let line := pyLstrip line
  if strStarts line "\\fn " ∨ strStarts line "\\class " then st
  else if strStarts line "@brief " ∨ strStarts line "\\brief " then
    finishLine fix st (strDrop line 7) false
  else if strStarts line "\\enum " then
    finishLine fix st (joinSpace ((pySplitWS line).drop 2)) false
  else if strStarts line "@deprecated " then
    finishLine fix { st with deprecated := some [], dest := Dest.deprecated }
      (strDrop line 12) false
  else if strStarts line "@note " then
    finishLine fix st (".. note:: " ++ strDrop line 6) true
  else
    let line := pyReplace (pyReplace line "<p>" "") "<br>" "\n"
    match parseParamTag line with
    | some (nm, rest) =>
      finishLine fix { st with params := st.params ++ [⟨nm, []⟩], dest := Dest.param } rest false
    | none =>
      match parseReturnTag line with
      | some rest => finishLine fix { st with dest := Dest.returns } rest false
      | none => finishLine fix st line false

/-- One iteration of the `for line in lines` loop of `from_comment`
(lines 94-199): strip, decoration stripping, the verbatim/blank `elif`
chain (lines 110-128), then `processRest` unless the branch `continue`d. -/
def processLine (fix : String → String) (st : PState) (raw : String) : PState :=
  let line := decorLine raw
  if line = "<pre>" ∨ line = "@code" then
    { appendCur st "::\n" with in_pre := true }
  else if line = "</pre>" ∨ line = "@endcode" then
    processRest fix { st with in_pre := false } ""
  else if st.in_block ∧ line = "" then
    processRest fix { st with in_block := false } line
  else if st.in_pre then
    appendCur st ("  " ++ line)
  else if strStarts line "@code " then
    { appendCur (appendCur st "::\n") ("  " ++ strDrop line 6) with in_pre := true }
  else if line = "" ∧ st.dest ≠ Dest.returns then
    processRest fix { st with dest := Dest.desc } line
  else
    processRest fix st line

/-- `Doc.from_comment(txt, fix_method_name)` (lines 67-204): fold the line
loop over `txt.splitlines()`, then trim the description and collapse blank
runs. -/
def Doc.from_comment (fix : String → String) (txt : String) : Doc :=
  let st := (pySplitlines txt).foldl (processLine fix) initState
  ⟨collapseBlanks (pyStrip (joinNL st.desc)), st.params, st.returns, st.deprecated⟩

/-! ## Name-keyed lookup and removal

`Doc.__post_init__` builds `_params_dict = OrderedDict((p.name, p) for p in
self.params)`; since later entries overwrite earlier ones, the dict maps
each name to the *last* `Param` object in `params` with that name.  The
functions below model a `Doc` whose dict is in sync with `params` (the
state after construction, which is the state every claim exercises):
`get_param` is Python's `dict.get` (total, `none` for a missing name), and
`remove_param` is fallible because `self._params_dict[name]` raises
`KeyError` (`none` models the exception).  The identity test `param is
to_delete` in `remove_param` singles out exactly the dict's object, i.e.
the entry at the last position with that name. -/

/-- `self._params_dict.get(name)`: the last parameter with this name. -/
def Doc.get_param (d : Doc) (nm : String) : Option Param :=
  (d.params.filter fun p => p.name = nm).getLast?

/-- Delete the entry at the last position whose name is `nm` (the object
`self._params_dict[name]` aliases). -/
def eraseLastName (nm : String) : List Param → List Param
  | [] => []
  | p :: rest =>
    if rest.any fun q => q.name = nm then p :: eraseLastName nm rest
    else if p.name = nm then rest
    else p :: rest

/-- `Doc.remove_param` (lines 209-214); `none` models the `KeyError` raised
by `self._params_dict[name]` for an undeclared name. -/
def Doc.remove_param (d : Doc) (nm : String) : Option Doc :=
  match d.get_param nm with
  | none => none
  | some _ => some { d with params := eraseLastName nm d.params }

/-! ## The renderer (`Doc.__str__`) -/

/-- `trim_lines` (line 39): join, strip, split. -/
def trim_lines (lines : List String) : List String :=
  pySplitNL (pyStrip (joinNL lines))

/-- The `:deprecated:` chunk of `to_append` (lines 221-226); `none` models
the `IndexError` of `self.deprecated[0]` on an empty deprecation list. -/
def renderDeprecated : Option (List String) → Option (List String)
  | none => some []
  | some [] => none
  | some (d0 :: rest) =>
    some (((":deprecated: " ++ d0) :: rest.map fun l => spacesStr 13 ++ l) ++ [""])

/-- `max(len(p.name) for p in self.params) + len(":param : ")`
(line 230). -/
def pindentOf (d : Doc) : Nat :=
  (d.params.map fun p => p.name.length).foldl max 0 + ":param : ".length

/-- The lines emitted for one parameter (lines 235-239): the padded
`:param <name>: ` first line and re-indented continuation lines. -/
def paramFieldLines (pindent : Nat) (p : Param) : List String :=
  let pname := ":param " ++ p.name ++ ": "
  let pp := trim_lines p.lines
  (pname ++ spacesStr (pindent - pname.length) ++ pp.headD "") ::
    (pp.drop 1).map fun l => spacesStr pindent ++ l

/-- The parameter chunk of `to_append` (lines 228-242). -/
def paramChunk (d : Doc) : List String :=
  if d.params.isEmpty then []
  else (d.params.flatMap (paramFieldLines (pindentOf d))) ++ [""]

/-- The `:returns:` chunk of `to_append` (lines 244-247). -/
def returnsChunk (d : Doc) : List String :=
  if d.returns.isEmpty then []
  else
    let r := trim_lines d.returns
    (":returns: " ++ r.headD "") :: (r.drop 1).map fun l => spacesStr 10 ++ l

/-- `Doc.__str__` (lines 216-249); `none` models the `IndexError` on an
empty deprecation list. -/
def Doc.render (d : Doc) : Option String :=
  match renderDeprecated d.deprecated with
  | none => none
  | some depChunk =>
    some (d.desc ++ pyRstrip (joinNL ("\n" :: (depChunk ++ paramChunk d ++ returnsChunk d))))

/-- `process_doc(txt)` (lines 252-255): parse with the default identity
`fix_method_name` and render. -/
def process_doc (txt : String) : Option String :=
  (Doc.from_comment (fun s => s) txt).render

/-! ## Type mapping and stub generation -/

/-- The `TYPE_MAPPING` table (lines 18-36). -/
def TYPE_MAPPING : List (String × String) :=
  [("ArrayList", "List"), ("<", "["), (">", "]"),
   ("boolean", "bool"), ("Boolean", "bool"),
   ("Integer", "int"), ("Long", "int"), ("long", "int"),
   ("Short", "int"), ("short", "int"), ("Byte", "int"), ("byte", "int"),
   ("double", "float"), ("Double", "float"), ("Float", "float"),
   ("String", "str"), ("ByteBuffer", "bytearray")]

/-- `re.split(r"(\w+)", s)`: alternating non-word/word pieces, keeping the
captured word runs, starting with a (possibly empty) non-word piece. -/
def wordSplitFuel : Nat → List Char → List (List Char)
  | 0, l => [l]
  | fuel + 1, l =>
    let nw := l.takeWhile fun c => !isWordChar c
    let rest := l.drop nw.length
    match rest with
    | [] => [nw]
    | _ =>
      let w := rest.takeWhile isWordChar
      nw :: w :: wordSplitFuel fuel (rest.drop w.length)

def wordSplit (l : List Char) : List (List Char) := wordSplitFuel l.length l

/-- `if word in TYPE_MAPPING: ... TYPE_MAPPING[word]` (lines 273-274). -/
def mapWord (w : String) : String :=
  match TYPE_MAPPING.lookup w with
  | some v => v
  | none => w

/-- `java_type_to_python` (lines 258-280). -/
def java_type_to_python (type : String) : String :=
  if type = "void" then "None"
  else if type = "byte[]" then "bytes"
  else
    let arr := if strEnds type "[]" then (true, strDropRight type 2) else (false, type)
    let pieces := wordSplit arr.2.toList
    let t2 := String.join (pieces.map fun p => mapWord p.asString)
    if arr.1 then "List[" ++ t2 ++ "]" else t2

/-- Python substring containment `pat in s` (for non-empty `pat`). -/
def containsSub (s pat : List Char) : Bool :=
  decide (pat <:+: s)

/-- One argument of the declaration's argument list (lines 341-345):
`arg.split()` must yield exactly the type and name tokens, after an
optional leading `final`; `none` models the unpacking `ValueError`. -/
def parsePyArg (arg : String) : Option (String × String) :=
  match pySplitWS arg with
  | [a, b] => if a ≠ "final" then some (a, b) else none
  | [a, b, c] => if a = "final" then some (b, c) else none
  | _ => none

/-- The signature-generation part of `process` (lines 335-359), taking the
declaration splitter's four outputs as arguments.  `retTypeOpt = none`
models an absent declared return type (an unmatched regex group); the
`"static" in modifiers` test is Python substring containment. -/
def makeStub (modifiers : String) (retTypeOpt : Option String) (funcName args docstr : String) :
    Option String :=
  let argsPartOpt : Option String :=
    if args = "" then some ""
    else
      ((args.splitOn ", ").mapM parsePyArg).map fun l =>
        ", " ++ joinSep ", " (l.map fun tn => tn.2 ++ ": " ++ java_type_to_python tn.1)
  match argsPartOpt with
  | none => none
  | some argsPart =>
    let fr := match retTypeOpt with
      | some rt => (funcName, java_type_to_python rt)
      | none => ("__init__", "None")
    if containsSub modifiers.toList "static".toList then
      some ("    @classmethod\n    def " ++ fr.1 ++ "(cls" ++ argsPart ++ ") -> " ++ fr.2 ++
        ":\n" ++ docstr)
    else
      some ("    def " ++ fr.1 ++ "(self" ++ argsPart ++ ") -> " ++ fr.2 ++ ":\n" ++ docstr)

/-! ## First-encounter order of parameter tags

`restParamNames` is the parameter name, if any, recognized by the
`@param` regex on a line that reached the tag chain (it reads only the
line, mirroring lines 130-154); `lineParamNames` adds the verbatim/blank
classification context and so tells, for a whole raw line, which parameter
tag is encountered on it.  `paramEncounterOrder` lists the `@param` names
of a comment in the order their tags are first encountered by the scanner,
which is the spec's notion of insertion order. -/

def restParamNames (line : String) : List String :=
  let l := pyLstrip line
  if strStarts l "\\fn " ∨ strStarts l "\\class " then []
  else if strStarts l "@brief " ∨ strStarts l "\\brief " then []
  else if strStarts l "\\enum " then []
  else if strStarts l "@deprecated " then []
  else if strStarts l "@note " then []
  else
    match parseParamTag (pyReplace (pyReplace l "<p>" "") "<br>" "\n") with
    | some nr => [nr.1]
    | none => []

def lineParamNames (st : PState) (raw : String) : List String :=
  let line := decorLine raw
  if line = "<pre>" ∨ line = "@code" then []
  else if line = "</pre>" ∨ line = "@endcode" then []
  else if st.in_block ∧ line = "" then []
  else if st.in_pre then []
  else if strStarts line "@code " then []
  else restParamNames line

def encounterGo (fix : String → String) (st : PState) : List String → List String
  | [] => []
  | raw :: rest => lineParamNames st raw ++ encounterGo fix (processLine fix st raw) rest

/-- The order in which `@param` tags are first encountered in the source
comment (the spec's parameter insertion order). -/
def paramEncounterOrder (fix : String → String) (txt : String) : List String :=
  encounterGo fix initState (pySplitlines txt)

/-! ## Basic lemmas about the string primitives -/

theorem toList_asString (l : List Char) : (List.asString l).toList = l := rfl

theorem collapseAux_replicate (k : Nat) (m : List Char) :
    ∀ n, collapseAux n (List.replicate k '\n' ++ m) = collapseAux (n + k) m := by
  induction k with
  | zero => intro n; simp
  | succ k ih =>
    intro n
    rw [show List.replicate (k + 1) '\n' ++ m = '\n' :: (List.replicate k '\n' ++ m) by
      simp [List.replicate_succ]]
    rw [show collapseAux n ('\n' :: (List.replicate k '\n' ++ m))
          = collapseAux (n + 1) (List.replicate k '\n' ++ m) by simp [collapseAux]]
    rw [ih (n + 1)]
    congr 1
    omega

theorem collapseAux_idem (l : List Char) :
    ∀ n, collapseAux 0 (collapseAux n l) = collapseAux n l := by
  induction l with
  | nil =>
    intro n
    show collapseAux 0 (List.replicate (min n 2) '\n') = List.replicate (min n 2) '\n'
    have h := collapseAux_replicate (min n 2) [] 0
    simp only [List.append_nil, Nat.zero_add] at h
    rw [h]
    show List.replicate (min (min n 2) 2) '\n' = List.replicate (min n 2) '\n'
    congr 1
    omega
  | cons c rest ih =>
    intro n
    by_cases hc : c = '\n'
    · subst hc
      show collapseAux 0 (collapseAux (n + 1) rest) = collapseAux (n + 1) rest
      exact ih (n + 1)
    · show collapseAux 0 (collapseAux n (c :: rest)) = collapseAux n (c :: rest)
      rw [show collapseAux n (c :: rest)
            = List.replicate (min n 2) '\n' ++ c :: collapseAux 0 rest by
        simp [collapseAux, hc]]
      rw [collapseAux_replicate (min n 2) (c :: collapseAux 0 rest) 0]
      simp only [Nat.zero_add]
      rw [show collapseAux (min n 2) (c :: collapseAux 0 rest)
            = List.replicate (min (min n 2) 2) '\n' ++ c
              :: collapseAux 0 (collapseAux 0 rest) by
        simp [collapseAux, hc]]
      rw [ih 0]
      congr 2
      omega

theorem trimRight_getLast {l : List Char} {c : Char}
    (h : (trimRightChars l).getLast? = some c) : isPySpace c = false := by
  induction l with
  | nil => simp [trimRightChars] at h
  | cons a rest ih =>
    rw [trimRightChars] at h
    split at h
    · simp at h
    · rename_i hcond
      by_cases hr : trimRightChars rest = []
      · rw [hr] at h
        simp at h
        subst h
        by_contra hs
        exact hcond ⟨hr, by simpa using hs⟩
      · obtain ⟨b, m, hm⟩ := List.exists_cons_of_ne_nil hr
        rw [hm, List.getLast?_cons_cons, ← hm] at h
        exact ih h

theorem trimRight_head {l : List Char} :
    trimRightChars l = [] ∨ (trimRightChars l).head? = l.head? := by
  cases l with
  | nil => left; rfl
  | cons a rest =>
    rw [trimRightChars]
    split
    · left; rfl
    · right; rfl

theorem trimRight_eq_self {l : List Char}
    (h : ∀ c, l.getLast? = some c → isPySpace c = false) : trimRightChars l = l := by
  induction l with
  | nil => rfl
  | cons a rest ih =>
    rw [trimRightChars]
    cases rest with
    | nil =>
      have ha := h a (by simp)
      simp [trimRightChars, ha]
    | cons b m =>
      have hrest : trimRightChars (b :: m) = b :: m := by
        apply ih
        intro c hc
        exact h c (by rwa [List.getLast?_cons_cons])
      rw [hrest]
      simp

theorem head?_dropWhile {p : Char → Bool} {l : List Char} {c : Char}
    (h : (l.dropWhile p).head? = some c) : p c = false := by
  induction l with
  | nil => simp [List.dropWhile] at h
  | cons a rest ih =>
    rw [List.dropWhile_cons] at h
    split at h
    · exact ih h
    · rename_i hp
      simp at h
      rw [← h]
      simpa using hp

theorem stripChars_head {l : List Char} {c : Char}
    (h : (stripChars l).head? = some c) : isPySpace c = false := by
  unfold stripChars at h
  rcases trimRight_head (l := l.dropWhile isPySpace) with he | hh
  · rw [he] at h; simp at h
  · rw [hh] at h
    exact head?_dropWhile h

theorem stripChars_getLast {l : List Char} {c : Char}
    (h : (stripChars l).getLast? = some c) : isPySpace c = false :=
  trimRight_getLast h

theorem stripChars_eq_self {l : List Char}
    (hh : ∀ c, l.head? = some c → isPySpace c = false)
    (hl : ∀ c, l.getLast? = some c → isPySpace c = false) : stripChars l = l := by
  unfold stripChars
  have hdw : l.dropWhile isPySpace = l := by
    cases l with
    | nil => rfl
    | cons a rest => rw [List.dropWhile_cons, if_neg (by simp [hh a rfl])]
  rw [hdw]
  exact trimRight_eq_self hl

theorem collapseAux_getLast {l : List Char} {c : Char}
    (hc : isPySpace c = false) :
    ∀ n, l.getLast? = some c → (collapseAux n l).getLast? = some c := by
  induction l with
  | nil => intro n h; simp at h
  | cons a rest ih =>
    intro n h
    have hcn : c ≠ '\n' := by rintro rfl; simp [isPySpace] at hc
    cases rest with
    | nil =>
      have hac : a = c := by simpa using h
      subst hac
      rw [show collapseAux n [a] = List.replicate (min n 2) '\n' ++ [a] by
        simp [collapseAux, hcn]]
      rw [List.getLast?_concat]
    | cons b m =>
      rw [List.getLast?_cons_cons] at h
      by_cases ha : a = '\n'
      · subst ha
        rw [show collapseAux n ('\n' :: b :: m) = collapseAux (n + 1) (b :: m) by
          simp [collapseAux]]
        exact ih (n + 1) h
      · rw [show collapseAux n (a :: b :: m)
            = List.replicate (min n 2) '\n' ++ a :: collapseAux 0 (b :: m) by
          simp [collapseAux, ha]]
        have hX := ih 0 h
        obtain ⟨x, X, hXe⟩ := List.exists_cons_of_ne_nil
          (l := collapseAux 0 (b :: m)) (by intro hnil; rw [hnil] at hX; simp at hX)
        rw [hXe] at hX
        rw [hXe, List.getLast?_append]
        rw [List.getLast?_cons_cons, hX]
        rfl

theorem okNL_cons_ne {c : Char} {X : List Char} (hc : c ≠ '\n') (h : okNL X = true) :
    okNL (c :: X) = true := by
  match X with
  | [] => rfl
  | [x] => rfl
  | x :: y :: t => simp [okNL, hc]; simpa [okNL] using h

theorem okNL_cons_cons {a c : Char} {X : List Char} (hc : c ≠ '\n')
    (h : okNL (c :: X) = true) : okNL (a :: c :: X) = true := by
  match X with
  | [] => rfl
  | x :: t => simp [okNL, hc]; simpa [okNL] using h

theorem okNL_cons₃ {a b c : Char} {X : List Char} (hc : c ≠ '\n')
    (h : okNL (b :: c :: X) = true) : okNL (a :: b :: c :: X) = true := by
  show (!(a = '\n' && b = '\n' && c = '\n') && okNL (b :: c :: X)) = true
  rw [h]
  simp [hc]

theorem okNL_collapseAux (l : List Char) : ∀ n, okNL (collapseAux n l) = true := by
  induction l with
  | nil =>
    intro n
    show okNL (List.replicate (min n 2) '\n') = true
    have h : min n 2 = 0 ∨ min n 2 = 1 ∨ min n 2 = 2 := by omega
    rcases h with h | h | h <;> rw [h] <;> rfl
  | cons c rest ih =>
    intro n
    by_cases hc : c = '\n'
    · subst hc
      rw [show collapseAux n ('\n' :: rest) = collapseAux (n + 1) rest by simp [collapseAux]]
      exact ih (n + 1)
    · rw [show collapseAux n (c :: rest)
          = List.replicate (min n 2) '\n' ++ c :: collapseAux 0 rest by simp [collapseAux, hc]]
      have hcX : okNL (c :: collapseAux 0 rest) = true := okNL_cons_ne hc (ih 0)
      have h : min n 2 = 0 ∨ min n 2 = 1 ∨ min n 2 = 2 := by omega
      rcases h with h | h | h <;> rw [h]
      · simpa using hcX
      · simpa using okNL_cons_cons hc hcX
      · show okNL ('\n' :: '\n' :: c :: collapseAux 0 rest) = true
        exact okNL_cons₃ hc (okNL_cons_cons hc hcX)

theorem stripChars_collapse_fix (L : List Char) :
    stripChars (collapseAux 0 (stripChars L)) = collapseAux 0 (stripChars L) := by
  apply stripChars_eq_self
  · intro c hcol
    cases hm : stripChars L with
    | nil => rw [hm] at hcol; simp [collapseAux] at hcol
    | cons a r =>
      rw [hm] at hcol
      have ha : isPySpace a = false := stripChars_head (by rw [hm]; rfl)
      have han : a ≠ '\n' := by rintro rfl; simp [isPySpace] at ha
      rw [show collapseAux 0 (a :: r) = List.replicate (min 0 2) '\n' ++ a :: collapseAux 0 r
          by simp [collapseAux, han]] at hcol
      simp at hcol
      rw [← hcol]
      exact ha
  · intro c hcol
    cases hm : (stripChars L).getLast? with
    | none =>
      rw [List.getLast?_eq_none_iff] at hm
      rw [hm] at hcol
      simp [collapseAux] at hcol
    | some c0 =>
      have hc0 : isPySpace c0 = false := stripChars_getLast hm
      have := collapseAux_getLast hc0 0 hm
      rw [this] at hcol
      simp at hcol
      rw [← hcol]
      exact hc0

/-- The description computed by `from_comment` is a fixed point of both
stripping and blank-line collapsing, and has no newline triple. -/
theorem desc_fix (s : String) :
    pyStrip (collapseBlanks (pyStrip s)) = collapseBlanks (pyStrip s) ∧
    collapseBlanks (collapseBlanks (pyStrip s)) = collapseBlanks (pyStrip s) ∧
    okNL (collapseBlanks (pyStrip s)).toList = true := by
  refine ⟨?_, ?_, ?_⟩
  · show (stripChars (collapseAux 0 (stripChars s.toList))).asString = _
    rw [stripChars_collapse_fix]
    rfl
  · show (collapseAux 0 (collapseAux 0 (stripChars s.toList))).asString = _
    rw [collapseAux_idem]
    rfl
  · exact okNL_collapseAux _ 0

/-- Claim C5: for every parsed document the description is trimmed (a fixed
point of `pyStrip`, so it has no leading or trailing blank lines), it
contains no run of two or more consecutive blank lines (`okNL`), and the
blank-line collapse is idempotent: it fixes every parsed description, and
collapsing twice equals collapsing once on any string. -/
theorem C5_description_trimmed_and_collapse_idempotent :
    (∀ (fix : String → String) (txt : String),
        pyStrip (Doc.from_comment fix txt).desc = (Doc.from_comment fix txt).desc ∧
        collapseBlanks (Doc.from_comment fix txt).desc = (Doc.from_comment fix txt).desc ∧
        okNL (Doc.from_comment fix txt).desc.toList = true) ∧
    (∀ s : String, collapseBlanks (collapseBlanks s) = collapseBlanks s) := by
  constructor
  · intro fix txt
    exact desc_fix (joinNL ((pySplitlines txt).foldl (processLine fix) initState).desc)
  · intro s
    show (collapseAux 0 ((collapseAux 0 s.toList).asString).toList).asString = _
    rw [toList_asString, collapseAux_idem]
    rfl

/-! ## Column alignment (claim C3) -/

theorem le_foldl_max (l : List Nat) : ∀ (a x : Nat), x ∈ l → x ≤ l.foldl max a := by
  induction l with
  | nil => intro a x hx; simp at hx
  | cons b m ih =>
    intro a x hx
    rcases List.mem_cons.mp hx with rfl | hx
    · calc x ≤ max a x := le_max_right a x
        _ ≤ m.foldl max (max a x) := by
          clear hx ih
          induction m generalizing a x with
          | nil => simp
          | cons c t iht => exact le_trans (le_max_left _ c) (iht (max a x) c)
    · exact ih (max a b) x hx

theorem length_spacesStr (n : Nat) : (spacesStr n).length = n := by
  show (List.replicate n ' ').asString.length = n
  show (List.replicate n ' ').length = n
  simp

theorem length_strAppend (a b : String) : (a ++ b).length = a.length + b.length :=
  String.length_append a b

/-- Claim C3: with a non-empty parameter list, the first description line
of every rendered `:param <name>:` field starts at column
`pindentOf d = maxNameLen + len(":param : ") = maxNameLen + 9`,
independent of the individual name's length. -/
theorem C3_param_fields_aligned (d : Doc) (p : Param) (hp : p ∈ d.params) :
    ∃ pre : String,
      (paramFieldLines (pindentOf d) p).headD ""
        = pre ++ (trim_lines p.lines).headD "" ∧
      pre.length = (d.params.map fun q => q.name.length).foldl max 0 + ":param : ".length ∧
      ":param : ".length = 9 := by
  refine ⟨":param " ++ p.name ++ ": " ++ spacesStr (pindentOf d - (":param " ++ p.name ++ ": ").length), ?_, ?_, rfl⟩
  · rfl
  · have h7 : ":param ".length = 7 := rfl
    have h2 : ": ".length = 2 := rfl
    have h9 : ":param : ".length = 9 := rfl
    have hlen : (":param " ++ p.name ++ ": ").length = p.name.length + 9 := by
      rw [length_strAppend, length_strAppend, h7, h2]
      omega
    rw [length_strAppend, length_spacesStr, hlen, h9]
    have hle : p.name.length ≤ (d.params.map fun q => q.name.length).foldl max 0 :=
      le_foldl_max _ 0 p.name.length (List.mem_map.mpr ⟨p, hp, rfl⟩)
    have hpi : pindentOf d = (d.params.map fun q => q.name.length).foldl max 0 + 9 := by
      show _ + ":param : ".length = _ + 9
      rw [h9]
    omega

/-- Witness for C3 at a two-parameter document. -/
theorem C3_param_fields_aligned_witness :
    ∃ pre : String,
      (paramFieldLines (pindentOf ⟨"", [⟨"a", ["x"]⟩, ⟨"long", ["y"]⟩], [], none⟩)
          ⟨"a", ["x"]⟩).headD ""
        = pre ++ (trim_lines ["x"]).headD "" ∧
      pre.length = ((⟨"", [⟨"a", ["x"]⟩, ⟨"long", ["y"]⟩], [], none⟩ : Doc).params.map
          fun q => q.name.length).foldl max 0 + ":param : ".length ∧
      ":param : ".length = 9 :=
  C3_param_fields_aligned ⟨"", [⟨"a", ["x"]⟩, ⟨"long", ["y"]⟩], [], none⟩ ⟨"a", ["x"]⟩
    (by decide)

/-! ## Name-keyed lookup (claims C2 and C10) -/

theorem mem_of_getLast?_eq {α : Type} {l : List α} {a : α} (h : l.getLast? = some a) :
    a ∈ l := by
  obtain ⟨hne, rfl⟩ := List.mem_getLast?_eq_getLast (l := l) (x := a) (by rw [h]; rfl)
  exact List.getLast_mem hne

/-- Counterexample to claim C2: looking up an undeclared name with
`get_param` is not a fatal failure.  Python's `dict.get` returns `None`, so
the embedded `Doc.get_param` is a total function whose normal return value
for the undeclared name `"b"` is `none`; only `remove_param`, which indexes
the dict with `[...]`, raises (modelled by the `Option` result being
`none` = `KeyError`). -/
theorem C2_counterexample :
    Doc.get_param ⟨"", [⟨"a", ["d"]⟩], [], none⟩ "b" = none ∧
    ("b" ∉ (([⟨"a", ["d"]⟩] : List Param).map fun p => p.name)) := by
  constructor
  · decide
  · decide

/-- Claim C2 (amended): the name-to-parameter mapping is exact (a returned
parameter's name equals the looked-up name; an undeclared name is never
matched fuzzily), but only `remove_param` fails fatally on an undeclared
name; `get_param` returns `None` silently. -/
theorem C2_lookup_exact :
    (∀ (d : Doc) (q : Param) (nm : String), d.get_param nm = some q → q.name = nm) ∧
    (∀ (d : Doc) (nm : String), (∀ p ∈ d.params, p.name ≠ nm) →
      d.get_param nm = none ∧ d.remove_param nm = none) := by
  constructor
  · intro d q nm h
    have hq : q ∈ d.params.filter fun p => p.name = nm := mem_of_getLast?_eq h
    have := (List.mem_filter.mp hq).2
    simpa using this
  · intro d nm h
    have hfil : (d.params.filter fun p => p.name = nm) = [] := by
      apply List.filter_eq_nil_iff.mpr
      intro p hp
      simpa using h p hp
    have hget : d.get_param nm = none := by
      show (d.params.filter fun p => p.name = nm).getLast? = none
      rw [hfil]
      rfl
    refine ⟨hget, ?_⟩
    show Doc.remove_param d nm = none
    unfold Doc.remove_param
    rw [hget]

/-- Witness for C2: the amended claim applied to a concrete document and
the undeclared name `"zz"`. -/
theorem C2_lookup_exact_witness :
    Doc.get_param ⟨"", [⟨"a", ["d"]⟩], [], none⟩ "zz" = none ∧
    Doc.remove_param ⟨"", [⟨"a", ["d"]⟩], [], none⟩ "zz" = none :=
  C2_lookup_exact.2 ⟨"", [⟨"a", ["d"]⟩], [], none⟩ "zz" (by decide)

theorem filter_last_name {l t : List Param} {q : Param} {nm : String}
    (hq : q.name = nm) (ht : ∀ r ∈ t, r.name ≠ nm) :
    ((l ++ q :: t).filter fun p => p.name = nm).getLast? = some q := by
  rw [List.filter_append, List.filter_cons, if_pos (by simp [hq])]
  rw [show (t.filter fun p => p.name = nm) = []
    from List.filter_eq_nil_iff.mpr fun r hr => by simpa using ht r hr]
  exact List.getLast?_concat _

theorem eraseLastName_middle {l t : List Param} {q : Param} {nm : String}
    (hq : q.name = nm) (ht : ∀ r ∈ t, r.name ≠ nm) :
    eraseLastName nm (l ++ q :: t) = l ++ t := by
  induction l with
  | nil =>
    show eraseLastName nm (q :: t) = t
    have hany : (t.any fun r => r.name = nm) = false := by
      rw [List.any_eq_false]
      intro r hr
      simpa using ht r hr
    unfold eraseLastName
    rw [if_neg (by simp [hany]), if_pos hq]
  | cons a l ih =>
    show eraseLastName nm (a :: (l ++ q :: t)) = a :: (l ++ t)
    have hany : ((l ++ q :: t).any fun r => r.name = nm) = true := by
      rw [List.any_eq_true]
      exact ⟨q, by simp, by simp [hq]⟩
    unfold eraseLastName
    rw [if_pos hany, ih]

/-- Claim C10: a duplicated `@param` name yields a second `Param` entry in
encounter order (shown both when the duplicate is the last parameter and
when further parameters follow it), and on any document whose parameter
list contains two entries with the same name — wherever the last
same-named entry sits — the name-keyed dict resolves to that last-created
entry, `get_param` returns it, and `remove_param` removes exactly it,
leaving the earlier same-named entry and every other parameter in place. -/
theorem C10_duplicate_param_last_wins :
    ((Doc.from_comment (fun s => s) "@param x a\n@param y b\n@param x c").params
        = [⟨"x", ["a"]⟩, ⟨"y", ["b"]⟩, ⟨"x", ["c"]⟩]) ∧
    ((Doc.from_comment (fun s => s) "@param x a\n@param x b\n@param y c").params
        = [⟨"x", ["a"]⟩, ⟨"x", ["b"]⟩, ⟨"y", ["c"]⟩]) ∧
    (∀ (d : Doc) (ps₁ ps₂ ps₃ : List Param) (p q : Param),
      d.params = ps₁ ++ p :: ps₂ ++ q :: ps₃ → q.name = p.name →
      (∀ r ∈ ps₃, r.name ≠ p.name) →
      d.get_param p.name = some q ∧
      d.remove_param p.name = some { d with params := ps₁ ++ p :: ps₂ ++ ps₃ }) := by
  refine ⟨by decide, by decide, ?_⟩
  intro d ps₁ ps₂ ps₃ p q hps hq ht
  have hshape : d.params = (ps₁ ++ p :: ps₂) ++ q :: ps₃ := by simp [hps]
  have hget : d.get_param p.name = some q := by
    show (d.params.filter fun r => r.name = p.name).getLast? = some q
    rw [hshape]
    exact filter_last_name hq ht
  refine ⟨hget, ?_⟩
  show Doc.remove_param d p.name = some _
  unfold Doc.remove_param
  rw [hget, hshape, eraseLastName_middle hq ht, List.append_assoc]

/-- Witness for C10: the general part applied to the concrete document
with parameters `x, x, y`, where another parameter follows the duplicated
name's last occurrence. -/
theorem C10_duplicate_param_last_wins_witness :
    Doc.get_param ⟨"", [⟨"x", ["a"]⟩, ⟨"x", ["b"]⟩, ⟨"y", ["c"]⟩], [], none⟩ "x"
        = some ⟨"x", ["b"]⟩ ∧
    Doc.remove_param ⟨"", [⟨"x", ["a"]⟩, ⟨"x", ["b"]⟩, ⟨"y", ["c"]⟩], [], none⟩ "x"
        = some ⟨"", [⟨"x", ["a"]⟩, ⟨"y", ["c"]⟩], [], none⟩ :=
  C10_duplicate_param_last_wins.2.2
    ⟨"", [⟨"x", ["a"]⟩, ⟨"x", ["b"]⟩, ⟨"y", ["c"]⟩], [], none⟩
    [] [] [⟨"y", ["c"]⟩] ⟨"x", ["a"]⟩ ⟨"x", ["b"]⟩ rfl rfl (by decide)

/-! ## Totality of rendering (claim C9)

The only failure point of the embedded pipeline is `self.deprecated[0]` in
`__str__`, which raises exactly when the deprecation list exists but is
empty.  The scanner never produces `some []`: the `@deprecated` branch
creates the empty list and the same iteration always appends the processed
line to it. -/

theorem appendCur_dep {st : PState} (s : String)
    (h : st.deprecated ≠ some [] ∨ st.dest = Dest.deprecated) :
    (appendCur st s).deprecated ≠ some [] := by
  unfold appendCur
  split <;> rename_i hdest <;> simp_all

theorem finishLine_dep (fix : String → String) {st : PState} (line : String) (nf : Bool)
    (h : st.deprecated ≠ some [] ∨ st.dest = Dest.deprecated) :
    (finishLine fix st line nf).deprecated ≠ some [] := by
  unfold finishLine
  dsimp only
  split
  · exact appendCur_dep _ (by simpa using h)
  · split
    · exact appendCur_dep _ (by simpa using h)
    · exact appendCur_dep _ h

theorem processRest_dep (fix : String → String) {st : PState} (line : String)
    (h : st.deprecated ≠ some []) :
    (processRest fix st line).deprecated ≠ some [] := by
  unfold processRest
  dsimp only
  split
  · exact h
  · split
    · exact finishLine_dep fix _ _ (Or.inl h)
    · split
      · exact finishLine_dep fix _ _ (Or.inl h)
      · split
        · exact finishLine_dep fix _ _ (Or.inr rfl)
        · split
          · exact finishLine_dep fix _ _ (Or.inl h)
          · split
            · exact finishLine_dep fix _ _ (Or.inl h)
            · split
              · exact finishLine_dep fix _ _ (Or.inl h)
              · exact finishLine_dep fix _ _ (Or.inl h)

theorem processLine_dep (fix : String → String) {st : PState} (raw : String)
    (h : st.deprecated ≠ some []) :
    (processLine fix st raw).deprecated ≠ some [] := by
  unfold processLine
  dsimp only
  split
  · exact appendCur_dep _ (Or.inl h)
  · split
    · exact processRest_dep fix _ h
    · split
      · exact processRest_dep fix _ h
      · split
        · exact appendCur_dep _ (Or.inl h)
        · split
          · exact appendCur_dep _ (Or.inl (appendCur_dep _ (Or.inl h)))
          · split
            · exact processRest_dep fix _ h
            · exact processRest_dep fix _ h

theorem foldl_dep (fix : String → String) (lines : List String) :
    ∀ (st : PState), st.deprecated ≠ some [] →
      (lines.foldl (processLine fix) st).deprecated ≠ some [] := by
  induction lines with
  | nil => intro st h; exact h
  | cons raw rest ih =>
    intro st h
    exact ih _ (processLine_dep fix raw h)

/-- Claim C9: parsing and rendering any comment (in particular an empty
comment, a description-only comment, or a returns-only comment) terminates
with a rendered reST string; the rendering error branch (an empty
deprecation list) is unreachable from `from_comment`. -/
theorem C9_process_doc_total (txt : String) : ∃ s, process_doc txt = some s := by
  have hdep : ((pySplitlines txt).foldl (processLine fun s => s) initState).deprecated
      ≠ some [] := foldl_dep _ _ initState (by simp [initState])
  show ∃ s, (Doc.from_comment (fun s => s) txt).render = some s
  unfold Doc.render
  have hd : (Doc.from_comment (fun s => s) txt).deprecated
      = ((pySplitlines txt).foldl (processLine fun s => s) initState).deprecated := rfl
  cases hdd : (Doc.from_comment (fun s => s) txt).deprecated with
  | none => exact ⟨_, rfl⟩
  | some l =>
    cases l with
    | nil => exact absurd (hd ▸ hdd) hdep
    | cons d0 rest => exact ⟨_, rfl⟩

/-! ## Verbatim blocks (claim C1) -/

/-- Counterexample to claim C1: the scanner `strip()`s every raw line
before the verbatim check, so the physical leading indentation of a line
inside a `<pre>` block is *not* preserved.  In the comment
`"x\n<pre>\n a\n    b\n</pre>"` the code lines `" a"` and `"    b"` have
different indentation, yet both reach the description as `"  a"` and
`"  b"` with the same fixed two-space indent; in particular the claim
predicts `"    b"` to reappear as `"      b"`, which never occurs. -/
theorem C1_counterexample :
    (Doc.from_comment (fun s => s) "x\n<pre>\n a\n    b\n</pre>").desc
      = "x\n::\n\n  a\n  b" ∧
    containsSub (Doc.from_comment (fun s => s) "x\n<pre>\n a\n    b\n</pre>").desc.toList
      "      b".toList = false ∧
    containsSub (Doc.from_comment (fun s => s) "x\n<pre>\n a\n    b\n</pre>").desc.toList
      "\n  b".toList = true := by
  refine ⟨by decide, by decide, by decide⟩

/-- Claim C1 (amended): while inside a verbatim block, every line that is
not a fence marker (and does not close an active admonition block) is
appended to the current destination *exactly* as the fixed two-space indent
plus the whitespace-stripped, decoration-stripped line — no inline markup
rewriting and no internal whitespace collapsing is applied, but the
physical line's leading indentation is stripped; only spacing that follows
the comment decoration survives. -/
theorem C1_verbatim_lines_appended_verbatim (fix : String → String) (st : PState)
    (raw : String)
    (h1 : decorLine raw ≠ "<pre>") (h2 : decorLine raw ≠ "@code")
    (h3 : decorLine raw ≠ "</pre>") (h4 : decorLine raw ≠ "@endcode")
    (h5 : ¬(st.in_block = true ∧ decorLine raw = ""))
    (h6 : st.in_pre = true) :
    processLine fix st raw = appendCur st ("  " ++ decorLine raw) := by
  unfold processLine
  dsimp only
  rw [if_neg (not_or.mpr ⟨h1, h2⟩), if_neg (not_or.mpr ⟨h3, h4⟩), if_neg h5, if_pos h6]

/-- Witness for C1's amended claim at a concrete verbatim line. -/
theorem C1_verbatim_lines_appended_verbatim_witness :
    processLine (fun s => s) ⟨["d"], [], [], none, Dest.desc, true, false, false⟩ "  a  b"
      = appendCur ⟨["d"], [], [], none, Dest.desc, true, false, false⟩
          ("  " ++ decorLine "  a  b") :=
  C1_verbatim_lines_appended_verbatim (fun s => s) _ _ (by decide) (by decide) (by decide)
    (by decide) (by decide) rfl

/-! ## Blank lines reset the destination (claim C6) -/

theorem toList_empty : ("" : String).toList = [] := rfl

theorem subScan_empty (m : List Char → Option (List Char × Nat)) : subScan m "" = "" := by
  show (subScanFuel m ("" : String).toList.length ("" : String).toList).asString = ""
  rw [toList_empty]
  rfl

theorem pyReplace_empty (pat repl : String) : pyReplace "" pat repl = "" := by
  show (replaceFuel pat.toList repl.toList ("" : String).toList.length
    ("" : String).toList).asString = ""
  rw [toList_empty]
  rfl

/-- The inline rewriting chain maps the empty line to itself. -/
theorem rewriteInline_empty (fix : String → String) : rewriteInline fix "" = "" := by
  unfold rewriteInline subLink1 subLink2 subLink3 subLink4 subCode
  dsimp only
  rw [subScan_empty, subScan_empty, subScan_empty, subScan_empty, subScan_empty,
    pyReplace_empty, pyReplace_empty, pyReplace_empty, pyReplace_empty]
  rw [if_neg (by decide)]
  rw [show emphAll "" = "" from by decide]
  rw [pyReplace_empty, pyReplace_empty, pyReplace_empty, pyReplace_empty]
  rw [show escUnderscores "" = "" from by decide]
  decide

theorem processRest_blank (fix : String → String) (st : PState)
    (h3 : st.in_block = false) :
    processRest fix st ""
      = appendCur { st with in_block := st.begin_block, begin_block := false } "" := by
  have hsplit : processRest fix st "" = finishLine fix st "" false := rfl
  rw [hsplit]
  unfold finishLine
  dsimp only
  rw [rewriteInline_empty]
  rw [if_neg (by simp [h3])]
  by_cases hb : st.begin_block
  · rw [if_pos (by simp [hb]), hb]
  · have hbf : st.begin_block = false := by simpa using hb
    rw [if_neg (by simp [hb])]
    obtain ⟨d, p, r, dep, ds, ip, ib, bb2⟩ := st
    dsimp only at h3 hbf
    subst h3
    subst hbf
    rfl

/-- Counterexample to claim C6: a blank line encountered while an
admonition block is active does *not* reset the destination, because the
blank-reset branch sits in the same `elif` chain as the admonition-closing
branch.  After `@param x` and an `@note` block, the content `"c"` that
follows the blank line still lands in `x`'s parameter lines and the
description stays empty, although the destination was a parameter list
(not the return list) and the line was blank outside any verbatim block. -/
theorem C6_counterexample :
    (Doc.from_comment (fun s => s) "@param x a\n@note n\nb\n\nc").desc = "" ∧
    (Doc.from_comment (fun s => s) "@param x a\n@note n\nb\n\nc").params
      = [⟨"x", ["a", ".. note:: n", "   b", "", "c"]⟩] := by
  refine ⟨by decide, by decide⟩

/-- Claim C6 (amended): when a decoration-stripped line is blank, the
scanner is outside a verbatim block, *no admonition block is active*, and
the current destination is not the return list, the destination resets to
the description and the blank line is appended there (this covers the
parameter and deprecation destinations). -/
theorem C6_blank_line_resets_destination (fix : String → String) (st : PState)
    (raw : String)
    (h1 : decorLine raw = "")
    (h2 : st.in_pre = false)
    (h3 : st.in_block = false)
    (h4 : st.dest ≠ Dest.returns) :
    processLine fix st raw
      = appendCur
          { st with
            dest := Dest.desc
            in_block := st.begin_block
            begin_block := false } "" := by
  unfold processLine
  dsimp only
  rw [h1]
  rw [if_neg (by decide), if_neg (by decide), if_neg (by simp [h3]),
    if_neg (by simp [h2]), if_neg (by decide), if_pos ⟨rfl, h4⟩]
  exact processRest_blank fix { st with dest := Dest.desc } h3

/-- Witness for C6's amended claim: a decorated blank line (`" * "`)
arriving while the destination is a parameter's line list. -/
theorem C6_blank_line_resets_destination_witness :
    processLine (fun s => s)
        ⟨["d"], [⟨"x", ["a"]⟩], [], none, Dest.param, false, false, false⟩ " * "
      = appendCur ⟨["d"], [⟨"x", ["a"]⟩], [], none, Dest.desc, false, false, false⟩ "" :=
  C6_blank_line_resets_destination (fun s => s)
    ⟨["d"], [⟨"x", ["a"]⟩], [], none, Dest.param, false, false, false⟩ " * "
    (by decide) rfl rfl (by decide)

/-! ## Order preservation (claim C4) -/

theorem modifyLastParam_names (s : String) (ps : List Param) :
    ((modifyLastParam s ps).map fun p => p.name) = ps.map fun p => p.name := by
  induction ps with
  | nil => rfl
  | cons p rest ih =>
    cases rest with
    | nil => rfl
    | cons q t =>
      show p.name :: ((modifyLastParam s (q :: t)).map fun p => p.name) = _
      rw [ih]
      rfl

theorem appendCur_names (st : PState) (s : String) :
    ((appendCur st s).params.map fun p => p.name) = st.params.map fun p => p.name := by
  unfold appendCur
  split <;> simp [modifyLastParam_names]

theorem finishLine_names (fix : String → String) (st : PState) (line : String) (nf : Bool) :
    ((finishLine fix st line nf).params.map fun p => p.name)
      = st.params.map fun p => p.name := by
  unfold finishLine
  dsimp only
  split
  · rw [appendCur_names]
  · split
    · rw [appendCur_names]
    · rw [appendCur_names]

theorem processRest_names (fix : String → String) (st : PState) (line : String) :
    ((processRest fix st line).params.map fun p => p.name)
      = (st.params.map fun p => p.name) ++ restParamNames line := by
  unfold processRest restParamNames
  dsimp only
  split
  · simp
  · split
    · simp [finishLine_names]
    · split
      · simp [finishLine_names]
      · split
        · simp [finishLine_names]
        · split
          · simp [finishLine_names]
          · cases hpt : parseParamTag
                (pyReplace (pyReplace (pyLstrip line) "<p>" "") "<br>" "\n") with
            | some nr =>
              obtain ⟨nm, rest⟩ := nr
              simp [finishLine_names]
            | none =>
              cases hrt : parseReturnTag
                  (pyReplace (pyReplace (pyLstrip line) "<p>" "") "<br>" "\n") with
              | some rest => simp [finishLine_names]
              | none => simp [finishLine_names]

theorem restParamNames_empty : restParamNames "" = [] := by decide

theorem processLine_names (fix : String → String) (st : PState) (raw : String) :
    ((processLine fix st raw).params.map fun p => p.name)
      = (st.params.map fun p => p.name) ++ lineParamNames st raw := by
  unfold processLine lineParamNames
  dsimp only
  split
  · simp [appendCur_names]
  · split
    · rw [processRest_names, restParamNames_empty]
    · split
      · rename_i hcond
        rw [processRest_names, hcond.2, restParamNames_empty]
      · split
        · simp [appendCur_names]
        · split
          · simp [appendCur_names]
          · split
            · rw [processRest_names]
            · rw [processRest_names]

theorem foldl_names (fix : String → String) (lines : List String) :
    ∀ st : PState, (((lines.foldl (processLine fix) st).params.map fun p => p.name))
      = (st.params.map fun p => p.name) ++ encounterGo fix st lines := by
  induction lines with
  | nil => intro st; simp [encounterGo]
  | cons raw rest ih =>
    intro st
    show (((rest.foldl (processLine fix) (processLine fix st raw)).params.map
      fun p => p.name)) = _
    rw [ih (processLine fix st raw), processLine_names]
    simp [encounterGo]

theorem map_headD_sublist_flatMap {α β : Type} (g : α → List β) (dflt : β) (l : List α)
    (h : ∀ a ∈ l, g a ≠ []) :
    (l.map fun a => (g a).headD dflt).Sublist (l.flatMap g) := by
  induction l with
  | nil => simp
  | cons a t ih =>
    obtain ⟨b, tb, hb⟩ := List.exists_cons_of_ne_nil (h a (by simp))
    rw [List.map_cons, List.flatMap_cons, hb]
    show ((b :: tb).headD dflt :: _).Sublist (b :: (tb ++ t.flatMap g))
    rw [List.headD_cons]
    exact List.Sublist.cons₂ b
      ((ih fun x hx => h x (by simp [hx])).trans (List.sublist_append_right tb _))

/-- Claim C4: the parameters of a parsed document appear in exactly the
order their `@param` tags are first encountered by the scanner
(`paramEncounterOrder`), and the renderer emits the `:param` field first
lines as a sublist of the parameter chunk in exactly the order of the
document's parameter list. -/
theorem C4_parameters_in_encounter_order :
    (∀ (fix : String → String) (txt : String),
        ((Doc.from_comment fix txt).params.map fun p => p.name)
          = paramEncounterOrder fix txt) ∧
    (∀ d : Doc,
        (d.params.map fun p => (paramFieldLines (pindentOf d) p).headD "").Sublist
          (paramChunk d)) := by
  constructor
  · intro fix txt
    show ((((pySplitlines txt).foldl (processLine fix) initState).params.map
      fun p => p.name)) = _
    rw [foldl_names]
    rfl
  · intro d
    unfold paramChunk
    split
    · rename_i hemp
      rw [List.isEmpty_iff.mp hemp]
      simp
    · exact (map_headD_sublist_flatMap _ "" _ fun p _ => by
          simp [paramFieldLines]).trans
        (List.sublist_append_left _ _)

/-! ## Emphasis/strong tag rewriting (claim C7) -/

/-- Claim C7: the emphasis loop visits the four tag spellings in source
order, and for each spelling: equal opening/closing counts on a line
rewrite both tags to the symmetric inline marker (the scanning substitution
`</?tag>` → marker); unequal counts rewrite every opening tag to the
role-open marker `:role:\`` and every closing tag to the role-close
marker `\``. -/
theorem C7_emphasis_balanced_vs_unbalanced :
    (∀ line : String,
        emphAll line
          = emphStep ("em", "*", "emphasis") (emphStep ("i", "*", "emphasis")
              (emphStep ("strong", "**", "strong")
                (emphStep ("b", "**", "strong") line)))) ∧
    (∀ tir ∈ emphTags, ∀ line : String,
      (countSubStr line ("<" ++ tir.1 ++ ">") = countSubStr line ("</" ++ tir.1 ++ ">") →
        emphStep tir line = subTagBoth tir.1 tir.2.1 line) ∧
      (countSubStr line ("<" ++ tir.1 ++ ">") ≠ countSubStr line ("</" ++ tir.1 ++ ">") →
        emphStep tir line
          = pyReplace (pyReplace line ("<" ++ tir.1 ++ ">") (":" ++ tir.2.2 ++ ":`"))
              ("</" ++ tir.1 ++ ">") "`")) := by
  constructor
  · intro line
    unfold emphAll emphTags
    rw [List.foldl_cons, List.foldl_cons, List.foldl_cons, List.foldl_cons, List.foldl_nil]
  · intro tir _ line
    constructor
    · intro h
      unfold emphStep
      rw [if_pos h]
    · intro h
      unfold emphStep
      rw [if_neg h]

/-- Witness for C7: the balanced branch on `"<b>x</b>"` and the unbalanced
branch on `"<i>y"`, with the resulting strings evaluated. -/
theorem C7_emphasis_balanced_vs_unbalanced_witness :
    (countSubStr "<b>x</b>" "<b>" = countSubStr "<b>x</b>" "</b>" ∧
      emphStep ("b", "**", "strong") "<b>x</b>" = subTagBoth "b" "**" "<b>x</b>" ∧
      subTagBoth "b" "**" "<b>x</b>" = "**x**") ∧
    (countSubStr "<i>y" "<i>" ≠ countSubStr "<i>y" "</i>" ∧
      emphStep ("i", "*", "emphasis") "<i>y"
        = pyReplace (pyReplace "<i>y" "<i>" ":emphasis:`") "</i>" "`" ∧
      pyReplace (pyReplace "<i>y" "<i>" ":emphasis:`") "</i>" "`" = ":emphasis:`y") := by
  refine ⟨⟨by decide, ?_, by decide⟩, ⟨by decide, ?_, by decide⟩⟩
  · exact (C7_emphasis_balanced_vs_unbalanced.2 ("b", "**", "strong") (by decide)
      "<b>x</b>").1 (by decide)
  · exact (C7_emphasis_balanced_vs_unbalanced.2 ("i", "*", "emphasis") (by decide)
      "<i>y").2 (by decide)

/-! ## Type mapping and constructor fallback (claim C8) -/

/-- Claim C8: the declared-type mapping sends `int[]` to `List[int]`,
`byte[]` to `bytes`, and `ArrayList<String>` to `List[str]`; and whenever
the declaration splitter reports no declared return type, any stub
`makeStub` generates names the function `__init__` and annotates the return
type `None`. -/
theorem C8_type_mapping_and_constructor :
    java_type_to_python "int[]" = "List[int]" ∧
    java_type_to_python "byte[]" = "bytes" ∧
    java_type_to_python "ArrayList<String>" = "List[str]" ∧
    (∀ (modifiers funcName args docstr stub : String),
      makeStub modifiers none funcName args docstr = some stub →
      ∃ p₁ p₂ p₃, stub = p₁ ++ "def __init__(" ++ p₂ ++ ") -> None:\n" ++ p₃) := by
  refine ⟨by decide, by decide, by decide, ?_⟩
  intro modifiers funcName args docstr stub h
  unfold makeStub at h
  dsimp only at h
  rcases hap : (if args = "" then some ""
      else ((args.splitOn ", ").mapM parsePyArg).map fun l =>
        ", " ++ joinSep ", " (l.map fun tn => tn.2 ++ ": " ++ java_type_to_python tn.1))
    with _ | ap
  · rw [hap] at h
    simp at h
  · rw [hap] at h
    dsimp only at h
    split at h
    · refine ⟨"    @classmethod\n    ", "cls" ++ ap, docstr, ?_⟩
      have hs : stub = "    @classmethod\n    def " ++ "__init__" ++ "(cls" ++ ap
          ++ ") -> " ++ "None" ++ ":\n" ++ docstr := by
        exact (Option.some_injective _ h).symm
      rw [hs]
      simp [String.append_assoc]
      conv_rhs => rw [← String.append_assoc]
      simp
    · refine ⟨"    ", "self" ++ ap, docstr, ?_⟩
      have hs : stub = "    def " ++ "__init__" ++ "(self" ++ ap
          ++ ") -> " ++ "None" ++ ":\n" ++ docstr := by
        exact (Option.some_injective _ h).symm
      rw [hs]
      simp [String.append_assoc]
      conv_rhs => rw [← String.append_assoc]
      simp

/-- Witness for C8 on a concrete constructor declaration with no
arguments. -/
theorem C8_type_mapping_and_constructor_witness :
    ∃ p₁ p₂ p₃, "    def __init__(self) -> None:\n    doc"
      = p₁ ++ "def __init__(" ++ p₂ ++ ") -> None:\n" ++ p₃ :=
  C8_type_mapping_and_constructor.2.2.2 "public " "Foo" "" "    doc"
    "    def __init__(self) -> None:\n    doc" (by decide)
